import Mathlib

/-!
Shallow embedding of the core of `sheetmusic2midi` (staff detection, symbol
association, pitch resolution, polyphonic MIDI assembly) and proofs checking
the specification's claims against it.

Conventions of the embedding:
* Machine integers become `ℤ`/`ℕ`; Python `//` becomes `Int.fdiv`, Python `%`
  becomes `Int.emod` (both are floored, matching Python's semantics).
* Python floats that only ever hold exactly representable values (note
  duration values 4.0, 2.0, 1.0, 0.5, 0.25 and their products with integer
  tick counts) become `ℚ`; `int(x)` on a nonnegative value becomes `⌊x⌋`.
* The statistics test `np.std(g) < np.mean(g) * 0.3` is rendered in exact
  integer arithmetic (see `acceptSpacing`).
* Mutation of Python objects becomes functional update of list elements.
-/

/-- `NoteDuration` enum of `symbol_detector.py`; values are quarter-note
multiples (WHOLE = 4.0, ..., SIXTEENTH = 0.25). -/

inductive NoteDuration where
  | WHOLE
  | HALF
  | QUARTER
  | EIGHTH
  | SIXTEENTH
deriving DecidableEq

/-- The `value` of a `NoteDuration` member (in quarter notes), exactly
representable as a rational. -/

def NoteDuration.val : NoteDuration → ℚ
  | .WHOLE => 4
  | .HALF => 2
  | .QUARTER => 1
  | .EIGHTH => 1/2
  | .SIXTEENTH => 1/4

/-- `SymbolType` enum of `symbol_detector.py` (members needed here). -/

inductive SymbolType where
  | NOTE_HEAD
  | NOTE_STEM
  | WHOLE_NOTE
  | HALF_NOTE
  | QUARTER_NOTE
  | EIGHTH_NOTE
  | SIXTEENTH_NOTE
  | WHOLE_REST
  | HALF_REST
  | QUARTER_REST
  | EIGHTH_REST
  | SHARP
  | FLAT
  | NATURAL
  | BEAM
  | UNKNOWN
deriving DecidableEq

/-- `Accidental` enum of `symbol_detector.py`. -/

inductive Accidental where
  | NONE
  | SHARP
  | FLAT
  | NATURAL
  | DOUBLE_SHARP
  | DOUBLE_FLAT
deriving DecidableEq

/-- The `MusicalSymbol` dataclass of `symbol_detector.py` (fields used by the
recognition core; the time/key-signature payload fields are omitted as no
claim touches them). -/

structure MusicalSymbol where
  symbol_type : SymbolType
  x : ℤ
  y : ℤ
  width : ℤ
  height : ℤ
  staff_position : Option ℚ := none
  confidence : ℚ := 1
  note_duration : Option NoteDuration := none
  pitch : Option String := none
  accidental : Accidental := .NONE
  is_beamed : Bool := false
  beam_group_id : Option ℕ := none
deriving DecidableEq

instance : Inhabited MusicalSymbol :=
  ⟨{ symbol_type := .UNKNOWN, x := 0, y := 0, width := 0, height := 0 }⟩

/-- `MusicalSymbol.center_x`: `self.x + self.width // 2`. -/

def MusicalSymbol.center_x (s : MusicalSymbol) : ℤ := s.x + s.width.fdiv 2

/-- `MusicalSymbol.center_y`: `self.y + self.height // 2`. -/

def MusicalSymbol.center_y (s : MusicalSymbol) : ℤ := s.y + s.height.fdiv 2

/-- A `(x, y, w, h)` bounding-box tuple, as used for stems and beams. -/

structure Rect where
  x : ℤ
  y : ℤ
  w : ℤ
  h : ℤ
deriving DecidableEq

/-- Numerator of `NoteDuration.value` as a dyadic fraction in lowest terms. -/

def NoteDuration.numer : NoteDuration → ℕ
  | .WHOLE => 4
  | .HALF => 2
  | .QUARTER => 1
  | .EIGHTH => 1
  | .SIXTEENTH => 1

/-- Denominator of `NoteDuration.value` as a dyadic fraction in lowest terms. -/

def NoteDuration.denom : NoteDuration → ℕ
  | .WHOLE => 1
  | .HALF => 1
  | .QUARTER => 1
  | .EIGHTH => 2
  | .SIXTEENTH => 4

/-- `MidiGenerator.duration_to_ticks`: `int(duration.value * self.ticks_per_beat)`
with `None` defaulting to `QUARTER`.  `duration.value` is the dyadic rational
`numer / denom`, its float product with an integer tick count below `2^50` is
exact, and `int` truncates the nonnegative result; hence the flooring natural
division `numer * ticks_per_beat / denom`. -/

def duration_to_ticks (ticks_per_beat : ℕ) (duration : Option NoteDuration) : ℕ :=
  let d := duration.getD .QUARTER
  d.numer * ticks_per_beat / d.denom

/-- Python's `round` on an exact rational: nearest integer, ties to even. -/

def pyRound (q : ℚ) : ℤ :=
  let f := ⌊q⌋
  let r := q - f
  if r < 1/2 then f
  else if 1/2 < r then f + 1
  else if f % 2 = 0 then f else f + 1

/-- The fixed 12-entry chromatic table `note_names` of
`SymbolDetector.calculate_pitch`. -/

def chromaticNames : List String :=
  ["C", "C#", "D", "D#", "E", "F"] ++ ["F#", "G", "G#", "A", "A#", "B"]

/-- Note name of a MIDI number: `note_names[midi_note % 12]` followed by
`(midi_note // 12) - 1`, with Python's floored `%` and `//`. -/

def midiNoteName (midi_note : ℤ) : String :=
  (chromaticNames.getD (midi_note.emod 12).toNat "") ++ toString (midi_note.fdiv 12 - 1)

/-- `SymbolDetector.calculate_pitch`: staff position plus clef to note name.
`offset = int(round((4 - position) * 2))`; treble adds it to MIDI 64, any
other clef string (the code's `else` branch, reached for `'bass'`) to 43;
a head without a staff position defaults to `'C4'`. -/

def calculate_pitch (note_head : MusicalSymbol) (clef : String) : String :=
  match note_head.staff_position with
  | none => "C4"
  | some position =>
    let offset := pyRound ((4 - position) * 2)
    let midi_note : ℤ := if clef = "treble" then 64 + offset else 43 + offset
    midiNoteName midi_note

/-- Semitone of a base note letter, the `base_notes` dict of
`MidiGenerator.note_name_to_midi`; `none` for a letter outside it. -/

def baseSemitone : Char → Option ℤ
  | 'C' => some 0
  | 'D' => some 2
  | 'E' => some 4
  | 'F' => some 5
  | 'G' => some 7
  | 'A' => some 9
  | 'B' => some 11
  | _ => none

/-- `MidiGenerator.note_name_to_midi`: parse `"C4"`, `"G#5"`, `"Bb3"`, ... to
a MIDI number clamped to `[0, 127]`; short strings, unparsable octave digits
and unknown letters fall back as in the source (`60`, octave `4`). -/

def note_name_to_midi (note_name : String) : ℕ :=
  let cs := note_name.data
  if cs.length < 2 then 60
  else
    let lastc := cs.getLastD ' '
    let octave : ℤ := if lastc.isDigit then (lastc.toNat - 48 : ℕ) else 4
    let note : List Char := if lastc.isDigit then cs.dropLast else cs
    match baseSemitone (note.headD ' ').toUpper with
    | none => 60
    | some base =>
      let accidental_part := note.drop 1
      let semitone : ℤ := base + (accidental_part.countP (· = '#') : ℕ)
        - (accidental_part.countP (· = 'b') : ℕ)
      let midi_number := (octave + 1) * 12 + semitone
      (max 0 (min 127 midi_number)).toNat

/-- The message types appearing in the track built by
`MidiGenerator.symbols_to_midi_polyphonic`. -/

inductive MsgType where
  | track_name
  | set_tempo
  | time_signature
  | program_change
  | note_on
  | note_off
  | end_of_track
deriving DecidableEq

/-- A track message: its type, its MIDI note number (0 for meta messages) and
its elapsed (delta) time.  Velocity is the constant 64 in the source and is
omitted. -/

structure Msg where
  type : MsgType
  note : ℕ
  time : ℕ
deriving DecidableEq

/-- The four metadata messages appended before any musical event in
`symbols_to_midi_polyphonic` (track name, tempo, time signature, program). -/

def initTrack : List Msg :=
  [⟨.track_name, 0, 0⟩, ⟨.set_tempo, 0, 0⟩, ⟨.time_signature, 0, 0⟩, ⟨.program_change, 0, 0⟩]

/-- Event tag: `'note'` or `'rest'` in the `musical_events` pairs. -/

inductive EvKind where
  | note
  | rest
deriving DecidableEq

/-- A `musical_events` entry: tag plus symbol. -/

abbrev Ev := EvKind × MusicalSymbol

/-- The rest symbol types recognised by `symbols_to_midi_polyphonic`. -/

def isRestType : SymbolType → Bool
  | .WHOLE_REST => true
  | .HALF_REST => true
  | .QUARTER_REST => true
  | .EIGHTH_REST => true
  | _ => false

/-- Build `musical_events`: symbols with a pitch become `'note'` events, else
symbols of a rest type become `'rest'` events, all others are skipped. -/

def classifyEvents (symbols : List MusicalSymbol) : List Ev :=
  symbols.filterMap fun s =>
    if s.pitch.isSome then some (.note, s)
    else if isRestType s.symbol_type then some (.rest, s)
    else none

/-- Insert an event into a list sorted by ascending `x`, after all entries
with `x` less than or equal to its own (the placement a stable sort gives). -/

def insertByX (e : Ev) : List Ev → List Ev
  | [] => [e]
  | f :: t => if f.2.x ≤ e.2.x then f :: insertByX e t else e :: f :: t

/-- `musical_events.sort(key=lambda e: e[1].x)`: stable sort by `x`,
implemented as left-to-right insertion. -/

def sortByX (l : List Ev) : List Ev :=
  l.foldl (fun acc e => insertByX e acc) []

/-- The grouping loop of `symbols_to_midi_polyphonic`: `anchor` is
`current_group[0]`, `cur` the group built so far; an event within
`time_threshold` of the anchor's `x` joins the group, otherwise the group is
closed and the event starts a new one. -/

def groupAux (time_threshold : ℤ) (anchor : MusicalSymbol) (cur : List Ev) :
    List Ev → List (List Ev)
  | [] => [cur]
  | e :: rest =>
    if e.2.x - anchor.x ≤ time_threshold then groupAux time_threshold anchor (cur ++ [e]) rest
    else cur :: groupAux time_threshold e.2 [e] rest

/-- Partition the sorted event list into the `event_groups` list. -/

def groupEvents (time_threshold : ℤ) : List Ev → List (List Ev)
  | [] => []
  | e :: rest => groupAux time_threshold e.2 [e] rest

/-- MIDI number of a note event's pitch (the pitch is present for every
`'note'` event by construction of `classifyEvents`). -/

def midiOf (n : MusicalSymbol) : ℕ := note_name_to_midi (n.pitch.getD "")

/-- The `'note'` symbols of a group, in group order. -/

def notesOf (group : List Ev) : List MusicalSymbol :=
  (group.filter fun e => e.1 = .note).map (·.2)

/-- The `'rest'` symbols of a group, in group order. -/

def restsOf (group : List Ev) : List MusicalSymbol :=
  (group.filter fun e => e.1 = .rest).map (·.2)

/-- `max(duration_to_ticks(...) for note in notes_in_group)`; a left fold with
`max`, equal to the Python `max` on a nonempty list of naturals. -/

def maxDurTicks (ticks_per_beat : ℕ) (notes : List MusicalSymbol) : ℕ :=
  notes.foldl (fun m n => max m (duration_to_ticks ticks_per_beat n.note_duration)) 0

/-- The loop `for i in range(len(track) - len(notes_in_group), len(track)):`
applied to a suffix: set the time of the first `note_off` found, then break. -/

def setFirstOff (t : ℕ) : List Msg → List Msg
  | [] => []
  | m :: rest => if m.type = .note_off then { m with time := t } :: rest
      else m :: setFirstOff t rest

/-- `if len(track) > 0: track[-1].time += rest_duration`: add time to the last
message of the track, if any. -/

def addTimeToLast (d : ℕ) : List Msg → List Msg
  | [] => []
  | [m] => [{ m with time := m.time + d }]
  | m :: rest => m :: addTimeToLast d rest

/-- The per-group body of `symbols_to_midi_polyphonic`: emit note-ons with
time 0 and note-offs with time 0, then set the first note-off's time (scanning
the last `len(notes_in_group)` messages) to the group's maximal duration; a
group without notes but with rests adds the first rest's duration to the last
message's time; a group with neither leaves the track unchanged. -/

def emitGroup (ticks_per_beat : ℕ) (track : List Msg) (group : List Ev) : List Msg :=
  let notes := notesOf group
  let rests := restsOf group
  if notes.isEmpty then
    match rests with
    | [] => track
    | r :: _ => addTimeToLast (duration_to_ticks ticks_per_beat r.note_duration) track
  else
    let ons := notes.map fun n => Msg.mk .note_on (midiOf n) 0
    let maxd := maxDurTicks ticks_per_beat notes
    let offs := notes.map fun n => Msg.mk .note_off (midiOf n) 0
    let t2 := (track ++ ons) ++ offs
    t2.take (t2.length - notes.length) ++ setFirstOff maxd (t2.drop (t2.length - notes.length))

/-- `MidiGenerator.symbols_to_midi_polyphonic`, as the list of track messages
it builds (file output and the `mido` container are serialization, out of
scope): classify, sort by `x`, group by the time threshold, emit each group,
then append `end_of_track`. -/

def symbols_to_midi_polyphonic (ticks_per_beat : ℕ) (time_threshold : ℤ)
    (symbols : List MusicalSymbol) : List Msg :=
  let sorted := sortByX (classifyEvents symbols)
  match sorted with
  | [] => initTrack ++ [⟨.end_of_track, 0, 0⟩]
  | e :: rest =>
    ((groupAux time_threshold e.2 [e] rest).foldl (emitGroup ticks_per_beat) initTrack)
      ++ [⟨.end_of_track, 0, 0⟩]

/-- Total elapsed (delta) time of a message list. -/

def sumTimes (track : List Msg) : ℕ := (track.map Msg.time).sum

/-- The stem-ownership test of `SymbolDetector.associate_stems_with_heads`:
`abs(stem_x - note_head.x) < note_head.width` and (the stem's vertical span
contains the head's center-y, or the stem's bottom end lies inside the head's
vertical extent). -/

def stemOwns (note_head : MusicalSymbol) (stem : Rect) : Prop :=
  |stem.x - note_head.x| < note_head.width ∧
    ((stem.y ≤ note_head.center_y ∧ note_head.center_y ≤ stem.y + stem.h) ∨
      (note_head.y ≤ stem.y + stem.h ∧ stem.y + stem.h ≤ note_head.y + note_head.height))

instance (note_head : MusicalSymbol) (stem : Rect) : Decidable (stemOwns note_head stem) := by
  unfold stemOwns; infer_instance

/-- The spec's wording of the ownership test, for comparison: the stem's
vertical span overlaps the head's center-y or the head's bottom edge. -/

def stemOwnsSpec (note_head : MusicalSymbol) (stem : Rect) : Prop :=
  |stem.x - note_head.x| < note_head.width ∧
    ((stem.y ≤ note_head.center_y ∧ note_head.center_y ≤ stem.y + stem.h) ∨
      (stem.y ≤ note_head.y + note_head.height ∧
        note_head.y + note_head.height ≤ stem.y + stem.h))

instance (note_head : MusicalSymbol) (stem : Rect) : Decidable (stemOwnsSpec note_head stem) := by
  unfold stemOwnsSpec; infer_instance

/-- `SymbolDetector.associate_stems_with_heads`: each head with an owned stem
becomes a quarter note; a stemless head becomes a whole note when its width or
height exceeds 15 px, else a half note.  In-place mutation becomes a map. -/

def associate_stems_with_heads (note_heads : List MusicalSymbol) (stems : List Rect) :
    List MusicalSymbol :=
  note_heads.map fun nh =>
    if stems.any fun st => decide (stemOwns nh st) then
      { nh with symbol_type := .QUARTER_NOTE, note_duration := some .QUARTER }
    else if 15 < nh.width ∨ 15 < nh.height then
      { nh with symbol_type := .WHOLE_NOTE, note_duration := some .WHOLE }
    else
      { nh with symbol_type := .HALF_NOTE, note_duration := some .HALF }

/-- The beam-attachment test of `SymbolDetector.associate_beams_with_notes`:
the head's center-x lies inside the beam's x-span, and the head's top or
bottom y is within (strictly less than) 40 px of the beam's y. -/

def beamQual (beam : Rect) (note : MusicalSymbol) : Prop :=
  beam.x ≤ note.center_x ∧ note.center_x ≤ beam.x + beam.w ∧
    (|note.y - beam.y| < 40 ∨ |note.y + note.height - beam.y| < 40)

instance (beam : Rect) (note : MusicalSymbol) : Decidable (beamQual beam note) := by
  unfold beamQual; infer_instance

/-- The spec's wording of the beam-attachment test, for comparison: the head's
`x` falls inside the beam's x-span and the head's `y` is within 40 px of the
beam's `y`. -/

def beamQualSpec (beam : Rect) (note : MusicalSymbol) : Prop :=
  beam.x ≤ note.x ∧ note.x ≤ beam.x + beam.w ∧ |note.y - beam.y| < 40

instance (beam : Rect) (note : MusicalSymbol) : Decidable (beamQualSpec beam note) := by
  unfold beamQualSpec; infer_instance

/-- Mark one qualifying head of a beamed group: set `is_beamed` and the group
id, and demote a quarter note to an eighth note. -/

def markBeamed (gid : ℕ) (note : MusicalSymbol) : MusicalSymbol :=
  let n := { note with is_beamed := true, beam_group_id := some gid }
  if n.note_duration = some .QUARTER then
    { n with symbol_type := .EIGHTH_NOTE, note_duration := some .EIGHTH }
  else n

/-- One iteration of the beam loop: when at least two heads qualify, mark all
of them with the current group id and advance the id. -/

def processBeam (note_heads : List MusicalSymbol) (gid : ℕ) (beam : Rect) :
    List MusicalSymbol × ℕ :=
  if 2 ≤ note_heads.countP fun nh => decide (beamQual beam nh) then
    (note_heads.map fun nh => if beamQual beam nh then markBeamed gid nh else nh, gid + 1)
  else (note_heads, gid)

/-- `SymbolDetector.associate_beams_with_notes`: fold the beam loop over all
beams, starting from `beam_group_id = 0`. -/

def associate_beams_with_notes (note_heads : List MusicalSymbol) (beams : List Rect) :
    List MusicalSymbol :=
  (beams.foldl (fun p b => processBeam p.1 p.2 b) (note_heads, 0)).1

/-- The qualification test of `SymbolDetector.apply_accidentals_to_notes`: the
note starts strictly right of the accidental, within 30 px horizontally, and
its center-y is within 15 px of the accidental's center-y. -/

def accQual (accidental : MusicalSymbol) (note : MusicalSymbol) : Prop :=
  accidental.x < note.x ∧ note.x - accidental.x < 30 ∧
    |note.center_y - accidental.center_y| < 15

instance (accidental note : MusicalSymbol) : Decidable (accQual accidental note) := by
  unfold accQual; infer_instance

/-- The closest-note scan of `apply_accidentals_to_notes`: walk the heads in
order keeping the index and distance of the best (strictly smaller distance)
qualifying head so far; `none` mirrors `min_distance = inf`. -/

def findClosestAux (accidental : MusicalSymbol) (best : Option (ℕ × ℤ)) (i : ℕ) :
    List MusicalSymbol → Option (ℕ × ℤ)
  | [] => best
  | nh :: rest =>
    let best' :=
      if accQual accidental nh ∧ ∀ p ∈ best, nh.x - accidental.x < p.2 then
        some (i, nh.x - accidental.x)
      else best
    findClosestAux accidental best' (i + 1) rest

/-- One iteration of the accidental loop: find the closest qualifying head and
set its accidental; if none qualifies, change nothing. -/

def applyOneAccidental (note_heads : List MusicalSymbol) (accidental : MusicalSymbol) :
    List MusicalSymbol :=
  match findClosestAux accidental none 0 note_heads with
  | none => note_heads
  | some (i, _) =>
    note_heads.mapIdx fun j nh =>
      if j = i then { nh with accidental := accidental.accidental } else nh

/-- `SymbolDetector.apply_accidentals_to_notes`: fold the accidental loop. -/

def apply_accidentals_to_notes (note_heads : List MusicalSymbol)
    (accidentals : List MusicalSymbol) : List MusicalSymbol :=
  accidentals.foldl applyOneAccidental note_heads

/-- A binary image as a list of pixel rows (foreground pixels nonzero). -/

abbrev Image := List (List ℕ)

/-- Pixel lookup with the image's zero padding outside its extent. -/

def getPix (img : Image) (r c : ℕ) : ℕ := (img.getD r []).getD c 0

/-- The `Staff` dataclass of `staff_detector.py`. -/

structure Staff where
  lines : List ℕ
  line_spacing : ℚ
  x_start : ℕ
  x_end : ℕ

instance : Inhabited Staff := ⟨⟨[], 0, 0, 0⟩⟩

/-- The 4 inter-line gaps of a 5-line window (`staff_lines[j+1] - staff_lines[j]`). -/

def gapsOf (w5 : List ℕ) : List ℤ :=
  List.zipWith (fun a b => (b : ℤ) - (a : ℤ)) w5 w5.tail

/-- The spacing-consistency test `np.std(spacings) < np.mean(spacings) * 0.3`
of `group_lines_into_staves`, in exact integer arithmetic.  With `S` the gap
sum and `Q` the sum of squared gaps over the 4 gaps, `mean = S/4` and
`var = Q/4 - (S/4)²`, and for `S > 0` the test `√var < 0.3·(S/4)` is
equivalent to `400·Q < 109·S²`; for `S ≤ 0` the test is false since a
standard deviation is nonnegative.  (At the realistic inputs involved the
float evaluation is exact, e.g. `10.0 * 0.3 == 3.0` in IEEE double.) -/

def acceptSpacing (w5 : List ℕ) : Prop :=
  let g := gapsOf w5
  let s := g.sum
  let q := (g.map fun x => x * x).sum
  0 < s ∧ 400 * q < 109 * (s * s)

instance (w5 : List ℕ) : Decidable (acceptSpacing w5) := by
  unfold acceptSpacing; infer_instance

/-- The spec's wording of the spacing test, for comparison: gap standard
deviation less than or equal to 30% of the mean gap (same rendering with `≤`). -/

def acceptSpacingSpec (w5 : List ℕ) : Prop :=
  let g := gapsOf w5
  let s := g.sum
  let q := (g.map fun x => x * x).sum
  0 < s ∧ 400 * q ≤ 109 * (s * s)

instance (w5 : List ℕ) : Decidable (acceptSpacingSpec w5) := by
  unfold acceptSpacingSpec; infer_instance

/-- Sum of one image column over a row range (`np.sum(region, axis=0)[c]`). -/

def colSum (rows : Image) (c : ℕ) : ℕ := (rows.map fun row => row.getD c 0).sum

/-- `np.max` of the per-column sums over the image's width. -/

def maxColSum (rows : Image) (wid : ℕ) : ℕ :=
  ((List.range wid).map (colSum rows)).foldl max 0

/-- The rows `staff_top..staff_bottom` (inclusive) of an accepted window
(`binary_image[staff_top:staff_bottom+1, :]`). -/

def windowRegion (img : Image) (w5 : List ℕ) : Image :=
  (img.drop (w5.headD 0)).take (w5.getLastD 0 + 1 - w5.headD 0)

/-- `np.where(horizontal_sum > threshold)[0]` for a window: the columns whose
foreground sum over the window band exceeds 10% of the maximal column sum
(`sum > max * 0.1`, exactly `10·sum > max`). -/

def xPositions (img : Image) (w5 : List ℕ) : List ℕ :=
  (List.range (img.headD []).length).filter fun c =>
    10 * colSum (windowRegion img w5) c >
      maxColSum (windowRegion img w5) (img.headD []).length

/-- The x-extent computation of an accepted window: a `Staff` on the first and
last qualifying column; `none` when no column qualifies (an all-background
band).  `line_spacing` is the mean gap. -/

def staffOfWindow (img : Image) (w5 : List ℕ) : Option Staff :=
  match xPositions img w5 with
  | [] => none
  | c :: rest =>
    some ⟨w5, ((gapsOf w5).sum : ℚ) / 4, c, (c :: rest).getLastD c⟩

/-- The loop body of `group_lines_into_staves`, with an explicit fuel (each
iteration consumes at least one line, so `line_positions.length` iterations
always suffice). -/

def groupStavesGo (img : Image) : ℕ → List ℕ → List Staff
  | 0, _ => []
  | fuel + 1, line_positions =>
    if line_positions.length < 5 then []
    else
      let w5 := line_positions.take 5
      if acceptSpacing w5 then
        match staffOfWindow img w5 with
        | some st => st :: groupStavesGo img fuel (line_positions.drop 5)
        | none => groupStavesGo img fuel (line_positions.drop 5)
      else groupStavesGo img fuel (line_positions.drop 1)

/-- `StaffDetector.group_lines_into_staves`: slide a 5-line window over the
line list; a window passing the spacing test is consumed (advance by 5) and
instantiated as a `Staff` when its band has foreground content; a failing
window advances by 1. -/

def group_lines_into_staves (img : Image) (line_positions : List ℕ) : List Staff :=
  groupStavesGo img line_positions.length line_positions

/-- Zero one staff line's band: rows `max(0, line_y - t)` up to (excluding)
`min(height, line_y + t + 1)`, columns `x_start` up to (excluding) `x_end`. -/

def zeroBand (t : ℕ) (x_start x_end : ℕ) (line_y : ℕ) (img : Image) : Image :=
  let top := line_y - t
  let bottom := min img.length (line_y + t + 1)
  img.mapIdx fun r row =>
    if top ≤ r ∧ r < bottom then
      row.mapIdx fun c v => if x_start ≤ c ∧ c < x_end then 0 else v
    else row

/-- `StaffDetector.remove_staff_lines`: for every stored staff and each of its
lines, zero the band across the staff's x-extent (`result[top:bottom,
x_start:x_end] = 0`). -/

def remove_staff_lines (staves : List Staff) (line_thickness : ℕ) (img : Image) : Image :=
  staves.foldl
    (fun im st => st.lines.foldl
      (fun im2 ly => zeroBand line_thickness st.x_start st.x_end ly im2) im)
    img

/-- Fixture: a 10×10 note head sitting on the bottom staff line (`p = 4`). -/

def headOnBottomLine : MusicalSymbol :=
  { symbol_type := .NOTE_HEAD, x := 0, y := 0, width := 10, height := 10,
    staff_position := some 4 }

/-- Fixture: a quarter note `"C4"` at `x = 100`. -/

def noteC4q : MusicalSymbol :=
  { symbol_type := .QUARTER_NOTE, x := 100, y := 0, width := 10, height := 10,
    note_duration := some .QUARTER, pitch := some "C4" }

/-- Fixture: a half note `"E4"` at `x = 105`. -/

def noteE4h : MusicalSymbol :=
  { symbol_type := .HALF_NOTE, x := 105, y := 0, width := 10, height := 10,
    note_duration := some .HALF, pitch := some "E4" }

/-- Fixture: a quarter note `"C4"` at `x = 0`. -/

def noteC4q0 : MusicalSymbol :=
  { symbol_type := .QUARTER_NOTE, x := 0, y := 0, width := 10, height := 10,
    note_duration := some .QUARTER, pitch := some "C4" }

/-- Fixture: a quarter rest at `x = 50`. -/

def restQ50 : MusicalSymbol :=
  { symbol_type := .QUARTER_REST, x := 50, y := 0, width := 10, height := 10,
    note_duration := some .QUARTER }

/-- Fixture: a quarter note `"E4"` at `x = 100`. -/

def noteE4q100 : MusicalSymbol :=
  { symbol_type := .QUARTER_NOTE, x := 100, y := 0, width := 10, height := 10,
    note_duration := some .QUARTER, pitch := some "E4" }

/-- Fixture: a plain 10×10 note head at the origin. -/

def headPlain : MusicalSymbol :=
  { symbol_type := .NOTE_HEAD, x := 0, y := 0, width := 10, height := 10 }

/-- Fixture: a stem starting inside the head and reaching well below it
(`x = 0`, vertical span `[8, 20]`). -/

def stemBelow : Rect := ⟨0, 8, 1, 12⟩

/-- "The duration was adjusted by the beam pass": either unchanged, or demoted
from quarter to eighth. -/

def durAdjusted (before after : Option NoteDuration) : Prop :=
  after = before ∨ (before = some .QUARTER ∧ after = some .EIGHTH)

/-- Fixture: a beam with x-span `[95, 175]` at `y = 0`. -/

def beamWide : Rect := ⟨95, 0, 80, 2⟩

/-- Fixture: a quarter-note head at `x = 100` (center-x 105). -/

def headQ100 : MusicalSymbol :=
  { symbol_type := .QUARTER_NOTE, x := 100, y := 0, width := 10, height := 10,
    note_duration := some .QUARTER }

/-- Fixture: a quarter-note head at `x = 170` of width 20 (center-x 180). -/

def headQ170 : MusicalSymbol :=
  { symbol_type := .QUARTER_NOTE, x := 170, y := 0, width := 20, height := 10,
    note_duration := some .QUARTER }

/-- Fixture: a quarter-note head at `x = 120` (center-x 125). -/

def headQ120 : MusicalSymbol :=
  { symbol_type := .QUARTER_NOTE, x := 120, y := 0, width := 10, height := 10,
    note_duration := some .QUARTER }

/-- Fixture: a sharp accidental at `x = 75` (25 px left of `headQ100`). -/

def sharpNear : MusicalSymbol :=
  { symbol_type := .SHARP, x := 75, y := 0, width := 6, height := 10,
    accidental := .SHARP }

/-- Fixture: a 41-row one-column all-foreground image. -/

def img41 : Image := List.replicate 41 [1]

/-- Fixture: a staff on lines `2, 4, 6, 8, 10` with x-extent `[0, 2]`. -/

def staffNarrow : Staff := { lines := [2, 4, 6, 8, 10], line_spacing := 2, x_start := 0, x_end := 2 }

/-- Fixture: a 13-row, 3-column all-foreground image. -/

def img13 : Image := List.replicate 13 [1, 1, 1]

/-- Sanity: the integer rendering of `duration_to_ticks` agrees with flooring
the exact rational product `value * ticks_per_beat`. -/
theorem duration_to_ticks_eq_floor (ticks_per_beat : ℕ) (d? : Option NoteDuration) :
    (duration_to_ticks ticks_per_beat d? : ℤ) =
      ⌊(d?.getD .QUARTER).val * (ticks_per_beat : ℚ)⌋ := by
  have key : ∀ n d t : ℕ,
      ((n * t / d : ℕ) : ℤ) = ⌊((n : ℚ) / (d : ℚ)) * (t : ℚ)⌋ := by
    intro n d t
    rw [show ((n : ℚ) / (d : ℚ)) * (t : ℚ) = ((n * t : ℕ) : ℚ) / ((d : ℕ) : ℚ) by
        push_cast; ring,
      Rat.floor_natCast_div_natCast]
    exact Int.ofNat_div _ _
  rcases d? with _ | d
  · simpa [duration_to_ticks, NoteDuration.val, NoteDuration.numer, NoteDuration.denom,
      Option.getD] using key 1 1 ticks_per_beat
  · cases d
    case WHOLE =>
      simpa [duration_to_ticks, NoteDuration.val, NoteDuration.numer, NoteDuration.denom,
        Option.getD, one_mul, div_one, one_div] using key 4 1 ticks_per_beat
    case HALF =>
      simpa [duration_to_ticks, NoteDuration.val, NoteDuration.numer, NoteDuration.denom,
        Option.getD, one_mul, div_one, one_div] using key 2 1 ticks_per_beat
    case QUARTER =>
      simpa [duration_to_ticks, NoteDuration.val, NoteDuration.numer, NoteDuration.denom,
        Option.getD, one_mul, div_one, one_div] using key 1 1 ticks_per_beat
    case EIGHTH =>
      simpa [duration_to_ticks, NoteDuration.val, NoteDuration.numer, NoteDuration.denom,
        Option.getD, one_mul, div_one, one_div] using key 1 2 ticks_per_beat
    case SIXTEENTH =>
      simpa [duration_to_ticks, NoteDuration.val, NoteDuration.numer, NoteDuration.denom,
        Option.getD, one_mul, div_one, one_div] using key 1 4 ticks_per_beat

/-- The fuel is irrelevant as soon as it covers the list length. -/
theorem groupStavesGo_fuel (img : Image) :
    ∀ (fuel fuel2 : ℕ) (l : List ℕ), l.length ≤ fuel → l.length ≤ fuel2 →
      groupStavesGo img fuel l = groupStavesGo img fuel2 l := by
  intro fuel
  induction fuel with
  | zero =>
    intro fuel2 l h1 h2
    have : l = [] := List.length_eq_zero.mp (by omega)
    subst this
    cases fuel2 <;> simp [groupStavesGo]
  | succ fuel ih =>
    intro fuel2 l h1 h2
    cases fuel2 with
    | zero =>
      have : l = [] := List.length_eq_zero.mp (by omega)
      subst this
      simp [groupStavesGo]
    | succ fuel2 =>
      simp only [groupStavesGo]
      by_cases hlen : l.length < 5
      · simp [hlen]
      · simp only [hlen, if_false]
        have hd5 : (l.drop 5).length ≤ fuel ∧ (l.drop 5).length ≤ fuel2 := by
          simp only [List.length_drop]; omega
        have hd1 : (l.drop 1).length ≤ fuel ∧ (l.drop 1).length ≤ fuel2 := by
          simp only [List.length_drop]; omega
        by_cases hacc : acceptSpacing (l.take 5)
        · simp only [hacc, if_true]
          cases staffOfWindow img (l.take 5) with
          | none => exact ih fuel2 (l.drop 5) hd5.1 hd5.2
          | some st => rw [ih fuel2 (l.drop 5) hd5.1 hd5.2]
        · simp only [hacc, if_false]
          exact ih fuel2 (l.drop 1) hd1.1 hd1.2

/-- C1: for a note head with staff position `p`, `calculate_pitch` returns the
note name of MIDI number `64 + round((4 - p) * 2)` under the treble clef and
of `43 + round((4 - p) * 2)` under the bass clef, the name being the fixed
12-entry chromatic table entry at `midi % 12` with octave `midi / 12 - 1`
(floored); a head with no staff position yields `"C4"`. -/
theorem C1_calculate_pitch_formula (note_head : MusicalSymbol) (p : ℚ)
    (hp : note_head.staff_position = some p) :
    (calculate_pitch note_head "treble" =
        chromaticNames.getD ((64 + pyRound ((4 - p) * 2)).emod 12).toNat "" ++
          toString ((64 + pyRound ((4 - p) * 2)).fdiv 12 - 1)) ∧
    (calculate_pitch note_head "bass" =
        chromaticNames.getD ((43 + pyRound ((4 - p) * 2)).emod 12).toNat "" ++
          toString ((43 + pyRound ((4 - p) * 2)).fdiv 12 - 1)) ∧
    (∀ nh : MusicalSymbol, nh.staff_position = none →
      ∀ clef, calculate_pitch nh clef = "C4") := by
  refine ⟨?_, ?_, ?_⟩
  · simp [calculate_pitch, hp, midiNoteName]
  · have hne : ¬ (("bass" : String) = "treble") := by decide
    simp [calculate_pitch, hp, midiNoteName, hne]
  · intro nh h2 clef
    simp [calculate_pitch, h2]

/-- Witness for C1 at the spec's anchor points: the bottom line (`p = 4`)
resolves to `"E4"` under the treble clef and `"G2"` under the bass clef. -/
theorem C1_calculate_pitch_formula_witness :
    calculate_pitch headOnBottomLine "treble" = "E4" ∧
    calculate_pitch headOnBottomLine "bass" = "G2" := by
  obtain ⟨h1, h2, -⟩ := C1_calculate_pitch_formula headOnBottomLine 4 rfl
  rw [h1, h2]
  have hpr : pyRound ((4 - (4 : ℚ)) * 2) = 0 := by norm_num [pyRound]
  rw [hpr]
  constructor <;> decide

/-- C3 counterexample: with `ticks_per_quarter_note = 3` a sixteenth note maps
to 0 ticks, while rounding `0.25 × 3 = 0.75` gives 1: `duration_to_ticks`
truncates, it does not round. -/
theorem C3_duration_round_counterexample :
    duration_to_ticks 3 (some .SIXTEENTH) = 0 ∧
      round (NoteDuration.SIXTEENTH.val * (3 : ℚ)) = 1 ∧ (0 : ℕ) ≠ 1 := by
  refine ⟨by decide, ?_, by decide⟩
  rw [show (NoteDuration.SIXTEENTH.val * 3 : ℚ) = 3/4 by norm_num [NoteDuration.val],
    round_eq]
  norm_num

/-- C3 amended: for every duration and every tick resolution,
`duration_to_ticks` equals the floor (truncation) of the exact product
`value × ticks_per_quarter_note`, not its rounding. -/
theorem C3_duration_to_ticks_truncates (ticks_per_beat : ℕ) (d? : Option NoteDuration) :
    (duration_to_ticks ticks_per_beat d? : ℤ) =
      ⌊(d?.getD .QUARTER).val * (ticks_per_beat : ℚ)⌋ :=
  duration_to_ticks_eq_floor ticks_per_beat d?

/-- C4: for a pitch string made of a letter in C–B, up to two `#`/`b`
accidental characters and one octave digit, `note_name_to_midi` returns
`(octave + 1) * 12 + semitone(letter) + #count - bcount` clamped to
`[0, 127]`, and in particular never exceeds 127. -/
theorem C4_note_name_to_midi_parse (L : Char) (accs : List Char) (d : Char)
    (hL : L ∈ ['C', 'D', 'E', 'F', 'G', 'A', 'B'])
    (hlen : accs.length ≤ 2)
    (haccs : ∀ c ∈ accs, c = '#' ∨ c = 'b')
    (hd : d ∈ ['0', '1', '2', '3', '4'] ++ ['5', '6', '7', '8', '9']) :
    note_name_to_midi ⟨L :: accs ++ [d]⟩ =
      (max 0 (min 127 (((d.toNat - 48 : ℕ) + 1) * 12 + (baseSemitone L).getD 0
        + (accs.countP (· = '#') : ℕ) - (accs.countP (· = 'b') : ℕ)))).toNat ∧
    note_name_to_midi ⟨L :: accs ++ [d]⟩ ≤ 127 := by
  have hdig : d.isDigit := by fin_cases hd <;> decide
  have hlen2 : ¬ ((L :: accs ++ [d]).length < 2) := by
    simp only [List.length_cons, List.length_append, List.length_singleton]
    omega
  have hcons : L :: accs ++ [d] = (L :: accs) ++ [d] := (List.cons_append L accs [d]).symm
  have hlast : (L :: accs ++ [d]).getLastD ' ' = d := by
    rw [hcons]; exact List.getLastD_concat _ _ _
  have hdrop : (L :: accs ++ [d]).dropLast = L :: accs := by
    rw [hcons]; exact List.dropLast_concat
  have hbase : ∃ b : ℤ, baseSemitone L.toUpper = some b ∧ baseSemitone L = some b := by
    fin_cases hL <;> exact ⟨_, rfl, rfl⟩
  obtain ⟨b, hb1, hb2⟩ := hbase
  have main : note_name_to_midi ⟨L :: accs ++ [d]⟩ =
      (max 0 (min 127 (((d.toNat - 48 : ℕ) + 1) * 12 + (baseSemitone L).getD 0
        + (accs.countP (· = '#') : ℕ) - (accs.countP (· = 'b') : ℕ)))).toNat := by
    simp only [note_name_to_midi, hlen2, if_false, hlast, hdrop, hdig, if_true,
      List.headD_cons, hb1, hb2, List.drop_one, List.tail_cons, Option.getD_some]
    congr 1
    ring
  refine ⟨main, ?_⟩
  rw [main]
  refine Int.toNat_le.mpr ?_
  refine sup_le (by norm_num) (le_trans inf_le_left (by norm_num))

/-- Witness for C4 at the claim's anchor values: `C4 → 60`, `A4 → 69`,
`C5 → 72`. -/
theorem C4_note_name_to_midi_parse_witness :
    note_name_to_midi "C4" = 60 ∧ note_name_to_midi "A4" = 69 ∧
      note_name_to_midi "C5" = 72 := by
  refine ⟨?_, ?_, ?_⟩
  · exact ((C4_note_name_to_midi_parse 'C' [] '4' (by decide) (by decide)
      (by decide) (by decide)).1).trans (by decide)
  · exact ((C4_note_name_to_midi_parse 'A' [] '4' (by decide) (by decide)
      (by decide) (by decide)).1).trans (by decide)
  · exact ((C4_note_name_to_midi_parse 'C' [] '5' (by decide) (by decide)
      (by decide) (by decide)).1).trans (by decide)

/-- C2: a group containing at least one pitched note emits all its note-ons
with elapsed time 0, then its note-offs, the first carrying the group's
maximal `duration_to_ticks` and all others 0; and the two pitched notes at
`x = 100` and `x = 105` with `time_threshold = 20` form a single group, whose
emitted track is exactly metadata, the two simultaneous note-ons, the two
note-offs with times `max = 960` and `0`, and end-of-track. -/
theorem C2_polyphonic_chord_group (ticks_per_beat : ℕ) (track : List Msg)
    (group : List Ev) (n : MusicalSymbol) (ns : List MusicalSymbol)
    (h : notesOf group = n :: ns) :
    (emitGroup ticks_per_beat track group =
      track ++ (n :: ns).map (fun m => Msg.mk .note_on (midiOf m) 0) ++
        (Msg.mk .note_off (midiOf n) (maxDurTicks ticks_per_beat (n :: ns)) ::
          ns.map fun m => Msg.mk .note_off (midiOf m) 0)) ∧
    groupEvents 20 (sortByX (classifyEvents [noteC4q, noteE4h])) =
      [[(.note, noteC4q), (.note, noteE4h)]] ∧
    symbols_to_midi_polyphonic 480 20 [noteC4q, noteE4h] =
      initTrack ++ [⟨.note_on, 60, 0⟩, ⟨.note_on, 64, 0⟩, ⟨.note_off, 60, 960⟩,
        ⟨.note_off, 64, 0⟩, ⟨.end_of_track, 0, 0⟩] := by
  refine ⟨?_, by decide, by decide⟩
  unfold emitGroup
  simp only [h, List.isEmpty_cons, Bool.false_eq_true, if_false, ite_false]
  have hlen : ((track ++ (n :: ns).map fun m => Msg.mk .note_on (midiOf m) 0) ++
      (n :: ns).map (fun m => Msg.mk .note_off (midiOf m) 0)).length -
      (n :: ns).length =
      (track ++ (n :: ns).map fun m => Msg.mk .note_on (midiOf m) 0).length := by
    simp; omega
  rw [hlen, List.take_left, List.drop_left]
  simp [List.map_cons, setFirstOff, List.append_assoc]

/-- Witness for C2: the chord group of the two fixture notes, emitted onto the
metadata track. -/
theorem C2_polyphonic_chord_group_witness :
    emitGroup 480 initTrack [(.note, noteC4q), (.note, noteE4h)] =
      initTrack ++ [⟨.note_on, 60, 0⟩, ⟨.note_on, 64, 0⟩, ⟨.note_off, 60, 960⟩,
        ⟨.note_off, 64, 0⟩] := by
  have h := (C2_polyphonic_chord_group 480 initTrack
    [(.note, noteC4q), (.note, noteE4h)] noteC4q [noteE4h] (by decide)).1
  exact h.trans (by decide)

/-- C9: a group with no pitched note and at least one rest emits no note-on or
note-off message: it only adds the first rest's `duration_to_ticks` to the
last already-emitted message's elapsed time, which increases the cumulative
elapsed time before every later event by exactly that amount; concretely, a
quarter rest between two quarter notes at `ticks_per_quarter_note = 480`
turns the first note-off's elapsed time into `480 + 480 = 960`, i.e. adds 480
ticks of silence before the second sounding group. -/
theorem C9_polyphonic_rest_group (ticks_per_beat : ℕ) (track : List Msg)
    (group : List Ev) (r : MusicalSymbol) (rs : List MusicalSymbol)
    (hn : notesOf group = []) (hr : restsOf group = r :: rs) :
    (emitGroup ticks_per_beat track group =
      addTimeToLast (duration_to_ticks ticks_per_beat r.note_duration) track) ∧
    (∀ d : ℕ, ∀ t : List Msg, t ≠ [] → sumTimes (addTimeToLast d t) = sumTimes t + d) ∧
    symbols_to_midi_polyphonic 480 20 [noteC4q0, restQ50, noteE4q100] =
      initTrack ++ [⟨.note_on, 60, 0⟩, ⟨.note_off, 60, 480 + 480⟩, ⟨.note_on, 64, 0⟩,
        ⟨.note_off, 64, 480⟩, ⟨.end_of_track, 0, 0⟩] := by
  refine ⟨?_, ?_, by decide⟩
  · unfold emitGroup
    simp [hn, hr]
  · intro d t
    induction t with
    | nil => exact fun ht => absurd rfl ht
    | cons m rest ih =>
      intro _
      cases rest with
      | nil => simp [addTimeToLast, sumTimes]
      | cons m2 rest2 =>
        have h2 := ih (by simp)
        simp only [addTimeToLast, sumTimes, List.map_cons, List.sum_cons] at h2 ⊢
        omega

/-- Witness for C9: the rest-only fixture group adds 480 ticks to the last
message of the metadata track, and the cumulative-time statement holds there. -/
theorem C9_polyphonic_rest_group_witness :
    emitGroup 480 initTrack [(.rest, restQ50)] =
      addTimeToLast (duration_to_ticks 480 restQ50.note_duration) initTrack ∧
    sumTimes (addTimeToLast 480 initTrack) = sumTimes initTrack + 480 := by
  have h := C9_polyphonic_rest_group 480 initTrack [(.rest, restQ50)] restQ50 []
    (by decide) (by decide)
  exact ⟨h.1, h.2.1 480 initTrack (by decide)⟩

/-- C6 counterexample: the stem's span `[8, 20]` contains the head's bottom
edge `10`, so the head owns it under the spec's wording, yet the code's test
fails (the span misses the center-y `5`, and the stem's bottom `20` is outside
the head), so the head is classified as a half note, not a quarter note. -/
theorem C6_stem_ownership_counterexample :
    stemOwnsSpec headPlain stemBelow ∧ ¬ stemOwns headPlain stemBelow ∧
    ((associate_stems_with_heads [headPlain] [stemBelow]).getD 0 default).note_duration =
      some .HALF ∧
    some NoteDuration.HALF ≠ some NoteDuration.QUARTER := by
  decide

/-- C6 amended: after `associate_stems_with_heads`, the head at each index is
the input head reclassified by the code's ownership test `stemOwns` (stem `x`
within one head-width, and stem span containing the head's center-y or stem
bottom lying within the head's vertical extent): an owned stem gives duration
quarter; otherwise whole when width or height exceeds 15 px, else half. -/
theorem C6_stem_duration_rule (note_heads : List MusicalSymbol) (stems : List Rect)
    (i : ℕ) (hi : i < note_heads.length) :
    (associate_stems_with_heads note_heads stems).getD i default =
      (if ∃ st ∈ stems, stemOwns (note_heads.getD i default) st then
        { note_heads.getD i default with
            symbol_type := .QUARTER_NOTE, note_duration := some .QUARTER }
      else if 15 < (note_heads.getD i default).width ∨
          15 < (note_heads.getD i default).height then
        { note_heads.getD i default with
            symbol_type := .WHOLE_NOTE, note_duration := some .WHOLE }
      else
        { note_heads.getD i default with
            symbol_type := .HALF_NOTE, note_duration := some .HALF }) := by
  have hmap : (associate_stems_with_heads note_heads stems).getD i default =
      (fun nh =>
        if stems.any fun st => decide (stemOwns nh st) then
          { nh with symbol_type := .QUARTER_NOTE, note_duration := some .QUARTER }
        else if 15 < nh.width ∨ 15 < nh.height then
          { nh with symbol_type := .WHOLE_NOTE, note_duration := some .WHOLE }
        else
          { nh with symbol_type := .HALF_NOTE, note_duration := some .HALF })
        (note_heads.getD i default) := by
    unfold associate_stems_with_heads
    simp [List.getD_eq_getElem?_getD, List.getElem?_map, List.getElem?_eq_getElem hi]
  rw [hmap]
  by_cases hex : ∃ st ∈ stems, stemOwns (note_heads.getD i default) st
  · have hany : (stems.any fun st => decide (stemOwns (note_heads.getD i default) st)) = true := by
      rw [List.any_eq_true]
      obtain ⟨st, hst, hown⟩ := hex
      exact ⟨st, hst, decide_eq_true hown⟩
    simp [hany, hex]
  · have hany : (stems.any fun st => decide (stemOwns (note_heads.getD i default) st)) = false := by
      rw [List.any_eq_false]
      intro st hst
      simp only [decide_eq_true_eq]
      exact fun hown => hex ⟨st, hst, hown⟩
    simp [hany, hex]

/-- Witness for C6: a stem through the head's center gives a quarter note;
with no stems the small head becomes a half note. -/
theorem C6_stem_duration_rule_witness :
    (associate_stems_with_heads [headPlain] [⟨0, 0, 1, 12⟩]).getD 0 default =
      { headPlain with symbol_type := .QUARTER_NOTE, note_duration := some .QUARTER } ∧
    (associate_stems_with_heads [headPlain] []).getD 0 default =
      { headPlain with symbol_type := .HALF_NOTE, note_duration := some .HALF } := by
  constructor
  · exact (C6_stem_duration_rule [headPlain] [⟨0, 0, 1, 12⟩] 0 (by decide)).trans (by decide)
  · exact (C6_stem_duration_rule [headPlain] [] 0 (by decide)).trans (by decide)

theorem durAdjusted_trans {a b c : Option NoteDuration}
    (h1 : durAdjusted a b) (h2 : durAdjusted b c) : durAdjusted a c := by
  rcases h1 with rfl | ⟨ha, hb⟩
  · exact h2
  · rcases h2 with rfl | ⟨hb2, hc⟩
    · exact Or.inr ⟨ha, hb⟩
    · rw [hb] at hb2; cases hb2

theorem markBeamed_durAdjusted (gid : ℕ) (nh : MusicalSymbol) :
    durAdjusted nh.note_duration (markBeamed gid nh).note_duration := by
  unfold markBeamed durAdjusted
  by_cases h : nh.note_duration = some NoteDuration.QUARTER <;> simp [h]

theorem processBeam_fst_length (note_heads : List MusicalSymbol) (gid : ℕ) (beam : Rect) :
    ((processBeam note_heads gid beam).1).length = note_heads.length := by
  unfold processBeam
  split <;> simp

theorem processBeam_durAdjusted (note_heads : List MusicalSymbol) (gid : ℕ) (beam : Rect)
    (i : ℕ) :
    durAdjusted ((note_heads.getD i default).note_duration)
      (((processBeam note_heads gid beam).1.getD i default).note_duration) := by
  unfold processBeam
  split
  · by_cases hi : i < note_heads.length
    · have hmap : ((note_heads.map fun nh =>
          if beamQual beam nh then markBeamed gid nh else nh).getD i default) =
          (if beamQual beam (note_heads.getD i default) then
            markBeamed gid (note_heads.getD i default)
          else note_heads.getD i default) := by
        simp [List.getD_eq_getElem?_getD, List.getElem?_map, List.getElem?_eq_getElem hi]
      simp only [hmap]
      split
      · exact markBeamed_durAdjusted gid _
      · exact Or.inl rfl
    · have h1 : (note_heads.getD i default) = default := by
        simp [List.getD_eq_getElem?_getD, List.getElem?_eq_none (by omega : note_heads.length ≤ i)]
      have h2 : ((note_heads.map fun nh =>
          if beamQual beam nh then markBeamed gid nh else nh).getD i default) = default := by
        simp [List.getD_eq_getElem?_getD,
          List.getElem?_eq_none (by simp; omega : (note_heads.map fun nh =>
            if beamQual beam nh then markBeamed gid nh else nh).length ≤ i)]
      rw [h1, h2]
      exact Or.inl rfl
  · exact Or.inl rfl

theorem beamsFold_durAdjusted (beams : List Rect) :
    ∀ (note_heads : List MusicalSymbol) (gid : ℕ) (i : ℕ),
      durAdjusted ((note_heads.getD i default).note_duration)
        (((beams.foldl (fun p b => processBeam p.1 p.2 b) (note_heads, gid)).1.getD i
          default).note_duration) := by
  induction beams with
  | nil => intro note_heads gid i; exact Or.inl rfl
  | cons b bs ih =>
    intro note_heads gid i
    have step := processBeam_durAdjusted note_heads gid b i
    have rest := ih (processBeam note_heads gid b).1 (processBeam note_heads gid b).2 i
    simp only [List.foldl_cons]
    exact durAdjusted_trans step rest

/-- C7 counterexample: under the spec's head-`x`-based test both fixture heads
qualify for the beam (their `x` lies in `[95, 175]`, `y` distance 0), yet the
code tests the head's center-x, under which only one head qualifies, so no
head is marked `is_beamed` at all. -/
theorem C7_beam_qual_counterexample :
    beamQualSpec beamWide headQ100 ∧ beamQualSpec beamWide headQ170 ∧
    ((associate_beams_with_notes [headQ100, headQ170] [beamWide]).getD 0
      default).is_beamed = false ∧
    ((associate_beams_with_notes [headQ100, headQ170] [beamWide]).getD 1
      default).is_beamed = false := by
  decide

/-- C7 amended: for each beam the code qualifies a head by its center-x lying
in the beam's x-span with its top or bottom y strictly within 40 px of the
beam's y; a beam step with at least two such heads marks exactly the
qualifying heads via `markBeamed` (is_beamed, shared current group id, and
quarter demoted to eighth), a step with fewer changes nothing, and across the
whole pass every head's duration is either unchanged or demoted from quarter
to eighth — in particular whole and half durations are never changed. -/
theorem C7_beam_marking_rule :
    (∀ (note_heads : List MusicalSymbol) (gid : ℕ) (beam : Rect),
      2 ≤ note_heads.countP (fun nh => decide (beamQual beam nh)) →
      (processBeam note_heads gid beam).1 =
        note_heads.map fun nh => if beamQual beam nh then markBeamed gid nh else nh) ∧
    (∀ (note_heads : List MusicalSymbol) (gid : ℕ) (beam : Rect),
      note_heads.countP (fun nh => decide (beamQual beam nh)) < 2 →
      (processBeam note_heads gid beam).1 = note_heads) ∧
    (∀ (gid : ℕ) (nh : MusicalSymbol),
      (markBeamed gid nh).is_beamed = true ∧
      (markBeamed gid nh).beam_group_id = some gid ∧
      durAdjusted nh.note_duration (markBeamed gid nh).note_duration) ∧
    (∀ (note_heads : List MusicalSymbol) (beams : List Rect) (i : ℕ),
      durAdjusted ((note_heads.getD i default).note_duration)
        (((associate_beams_with_notes note_heads beams).getD i default).note_duration) ∧
      ((note_heads.getD i default).note_duration = some .WHOLE ∨
        (note_heads.getD i default).note_duration = some .HALF →
        ((associate_beams_with_notes note_heads beams).getD i default).note_duration =
          (note_heads.getD i default).note_duration)) := by
  refine ⟨?_, ?_, ?_, ?_⟩
  · intro note_heads gid beam h2
    unfold processBeam
    rw [if_pos h2]
  · intro note_heads gid beam h2
    unfold processBeam
    rw [if_neg (by omega)]
  · intro gid nh
    refine ⟨?_, ?_, markBeamed_durAdjusted gid nh⟩ <;>
      (unfold markBeamed;
        by_cases h : nh.note_duration = some NoteDuration.QUARTER <;> simp [h])
  · intro note_heads beams i
    have hadj := beamsFold_durAdjusted beams note_heads 0 i
    refine ⟨hadj, ?_⟩
    intro hwh
    rcases hadj with heq | ⟨hq, _⟩
    · exact heq
    · rcases hwh with hw | hh
      · rw [hw] at hq; cases hq
      · rw [hh] at hq; cases hq

/-- Witness for C7: the fixture beam step on the two center-qualifying heads
marks both with group id 0 and demotes them to eighth notes; the fixture
whole-duration head is untouched by the full pass. -/
theorem C7_beam_marking_rule_witness :
    (processBeam [headQ100, headQ120] 0 beamWide).1 =
      [markBeamed 0 headQ100, markBeamed 0 headQ120] ∧
    durAdjusted ((([headQ100] : List MusicalSymbol).getD 0 default).note_duration)
      (((associate_beams_with_notes [headQ100] [beamWide]).getD 0
        default).note_duration) := by
  constructor
  · exact (C7_beam_marking_rule.1 [headQ100, headQ120] 0 beamWide (by decide)).trans
      (by decide)
  · exact (C7_beam_marking_rule.2.2.2 [headQ100] [beamWide] 0).1

theorem findClosestAux_spec (accidental : MusicalSymbol) :
    ∀ (l : List MusicalSymbol) (k : ℕ) (best : Option (ℕ × ℤ)),
      (findClosestAux accidental best k l = best ∧
        (∀ m, m < l.length → accQual accidental (l.getD m default) →
          ∀ p ∈ best, p.2 ≤ (l.getD m default).x - accidental.x) ∧
        (best = none → ∀ m, m < l.length → ¬ accQual accidental (l.getD m default))) ∨
      (∃ idx, idx < l.length ∧ accQual accidental (l.getD idx default) ∧
        findClosestAux accidental best k l =
          some (k + idx, (l.getD idx default).x - accidental.x) ∧
        (∀ p ∈ best, (l.getD idx default).x - accidental.x < p.2) ∧
        (∀ m, m < l.length → accQual accidental (l.getD m default) →
          (l.getD idx default).x - accidental.x ≤ (l.getD m default).x - accidental.x) ∧
        (∀ m, m < idx → accQual accidental (l.getD m default) →
          (l.getD idx default).x - accidental.x < (l.getD m default).x - accidental.x)) := by
  intro l
  induction l with
  | nil =>
    intro k best
    left
    refine ⟨rfl, by simp, fun _ m hm => absurd hm (by simp)⟩
  | cons nh rest ih =>
    intro k best
    by_cases hacc : accQual accidental nh ∧ ∀ p ∈ best, nh.x - accidental.x < p.2
    · have hunf : findClosestAux accidental best k (nh :: rest) =
          findClosestAux accidental (some (k, nh.x - accidental.x)) (k + 1) rest := by
        simp only [findClosestAux, if_pos hacc]
      rcases ih (k + 1) (some (k, nh.x - accidental.x)) with
        ⟨hres, hmin, -⟩ | ⟨idx, hidx, hq, hres, hbeat, hmin, hfirst⟩
      · right
        refine ⟨0, by simp, by simpa using hacc.1, ?_, ?_, ?_, ?_⟩
        · rw [hunf, hres]; simp
        · simpa using hacc.2
        · intro m hm hqm
          cases m with
          | zero => simp
          | succ m2 =>
            simp only [List.getD_cons_succ] at hqm ⊢
            have := hmin m2 (by simpa using hm) hqm (k, nh.x - accidental.x) rfl
            simpa using this
        · intro m hm
          exact absurd hm (Nat.not_lt_zero m)
      · right
        refine ⟨idx + 1, by simpa using hidx, by simpa using hq, ?_, ?_, ?_, ?_⟩
        · rw [hunf, hres]
          simp only [List.getD_cons_succ]
          have harith : k + 1 + idx = k + (idx + 1) := by omega
          rw [harith]
        · intro p hp
          have h1 := hbeat (k, nh.x - accidental.x) rfl
          simp only [List.getD_cons_succ]
          have h2 := hacc.2 p hp
          omega
        · intro m hm hqm
          cases m with
          | zero =>
            have h1 := hbeat (k, nh.x - accidental.x) rfl
            simp only [List.getD_cons_zero] at hqm
            simp only [List.getD_cons_succ, List.getD_cons_zero]
            omega
          | succ m2 =>
            simp only [List.getD_cons_succ] at hqm ⊢
            exact hmin m2 (by simpa using hm) hqm
        · intro m hm hqm
          cases m with
          | zero =>
            have h1 := hbeat (k, nh.x - accidental.x) rfl
            simp only [List.getD_cons_zero] at hqm
            simp only [List.getD_cons_succ, List.getD_cons_zero]
            omega
          | succ m2 =>
            simp only [List.getD_cons_succ] at hqm ⊢
            exact hfirst m2 (by omega) hqm
    · have hunf : findClosestAux accidental best k (nh :: rest) =
          findClosestAux accidental best (k + 1) rest := by
        simp only [findClosestAux, if_neg hacc]
      rcases ih (k + 1) best with
        ⟨hres, hmin, hnone⟩ | ⟨idx, hidx, hq, hres, hbeat, hmin, hfirst⟩
      · left
        refine ⟨by rw [hunf, hres], ?_, ?_⟩
        · intro m hm hqm p hp
          cases m with
          | zero =>
            simp only [List.getD_cons_zero] at hqm
            subst hp
            by_contra hlt
            push_neg at hlt
            simp only [List.getD_cons_zero] at hlt
            refine hacc ⟨hqm, fun q hq2 => ?_⟩
            rw [Option.mem_def, Option.some_inj] at hq2
            subst hq2
            exact hlt
          | succ m2 =>
            simp only [List.getD_cons_succ] at hqm ⊢
            exact hmin m2 (by simpa using hm) hqm p hp
        · intro hb m hm
          cases m with
          | zero =>
            simp only [List.getD_cons_zero]
            intro hqm
            exact hacc ⟨hqm, by simp [hb]⟩
          | succ m2 =>
            simp only [List.getD_cons_succ]
            exact hnone hb m2 (by simpa using hm)
      · right
        refine ⟨idx + 1, by simpa using hidx, by simpa using hq, ?_, ?_, ?_, ?_⟩
        · rw [hunf, hres]
          simp only [List.getD_cons_succ]
          have harith : k + 1 + idx = k + (idx + 1) := by omega
          rw [harith]
        · intro p hp
          simpa using hbeat p hp
        · intro m hm hqm
          cases m with
          | zero =>
            simp only [List.getD_cons_zero] at hqm
            simp only [List.getD_cons_succ, List.getD_cons_zero]
            rcases best with _ | p0
            · exact absurd ⟨hqm, by simp⟩ hacc
            · have h1 := hbeat p0 rfl
              have h2 : ¬ (nh.x - accidental.x < p0.2) := by
                intro hlt
                exact hacc ⟨hqm, fun q hq2 => by
                  rw [Option.mem_def, Option.some_inj] at hq2
                  rw [← hq2]; exact hlt⟩
              omega
          | succ m2 =>
            simp only [List.getD_cons_succ] at hqm ⊢
            exact hmin m2 (by simpa using hm) hqm
        · intro m hm hqm
          cases m with
          | zero =>
            simp only [List.getD_cons_zero] at hqm
            simp only [List.getD_cons_succ, List.getD_cons_zero]
            rcases best with _ | p0
            · exact absurd ⟨hqm, by simp⟩ hacc
            · have h1 := hbeat p0 rfl
              have h2 : ¬ (nh.x - accidental.x < p0.2) := by
                intro hlt
                exact hacc ⟨hqm, fun q hq2 => by
                  rw [Option.mem_def, Option.some_inj] at hq2
                  rw [← hq2]; exact hlt⟩
              omega
          | succ m2 =>
            simp only [List.getD_cons_succ] at hqm ⊢
            exact hfirst m2 (by omega) hqm

/-- C8: one accidental pass assigns the accidental's kind to the first
qualifying head attaining the minimal horizontal distance (heads strictly to
the right within 30 px horizontally and 15 px of center-y vertically), and
changes nothing when no head qualifies; the full operation folds this pass
over the accidentals in order. -/
theorem C8_accidental_nearest_right :
    (∀ (accidental : MusicalSymbol) (note_heads : List MusicalSymbol),
      (∀ nh ∈ note_heads, ¬ accQual accidental nh) →
      applyOneAccidental note_heads accidental = note_heads) ∧
    (∀ (accidental : MusicalSymbol) (note_heads : List MusicalSymbol),
      (∃ nh ∈ note_heads, accQual accidental nh) →
      ∃ i, i < note_heads.length ∧ accQual accidental (note_heads.getD i default) ∧
        (∀ j, j < note_heads.length → accQual accidental (note_heads.getD j default) →
          (note_heads.getD i default).x - accidental.x ≤
            (note_heads.getD j default).x - accidental.x) ∧
        (∀ j, j < i → accQual accidental (note_heads.getD j default) →
          (note_heads.getD i default).x - accidental.x <
            (note_heads.getD j default).x - accidental.x) ∧
        applyOneAccidental note_heads accidental =
          note_heads.mapIdx fun j nh =>
            if j = i then { nh with accidental := accidental.accidental } else nh) ∧
    (∀ note_heads accidentals,
      apply_accidentals_to_notes note_heads accidentals =
        accidentals.foldl applyOneAccidental note_heads) := by
  refine ⟨?_, ?_, fun _ _ => rfl⟩
  · intro accidental note_heads hno
    unfold applyOneAccidental
    rcases findClosestAux_spec accidental note_heads 0 none with
      ⟨hres, -, -⟩ | ⟨idx, hidx, hq, -, -, -, -⟩
    · rw [hres]
    · have hmem : note_heads.getD idx default ∈ note_heads := by
        rw [List.getD_eq_getElem?_getD, List.getElem?_eq_getElem hidx]
        exact List.getElem_mem hidx
      exact absurd hq (hno _ hmem)
  · intro accidental note_heads hex
    rcases findClosestAux_spec accidental note_heads 0 none with
      ⟨-, -, hnone⟩ | ⟨idx, hidx, hq, hres, -, hmin, hfirst⟩
    · exfalso
      obtain ⟨nh, hmem, hqnh⟩ := hex
      obtain ⟨m, hm, hget⟩ := List.getElem_of_mem hmem
      refine hnone rfl m hm ?_
      rw [List.getD_eq_getElem?_getD, List.getElem?_eq_getElem hm]
      simpa [hget] using hqnh
    · refine ⟨idx, hidx, hq, hmin, hfirst, ?_⟩
      unfold applyOneAccidental
      rw [hres]
      simp [Nat.zero_add]

/-- Witness for C8: the fixture sharp is dropped when the only head is too far
left, and is assigned to `headQ100` 25 px to its right. -/
theorem C8_accidental_nearest_right_witness :
    applyOneAccidental [headPlain] sharpNear = [headPlain] ∧
    applyOneAccidental [headQ100] sharpNear =
      [{ headQ100 with accidental := Accidental.SHARP }] := by
  constructor
  · exact C8_accidental_nearest_right.1 sharpNear [headPlain] (by decide)
  · obtain ⟨i, hi, -, -, -, heq⟩ := C8_accidental_nearest_right.2.1 sharpNear [headQ100]
      ⟨headQ100, by decide, by decide⟩
    have hi0 : i = 0 := by simp only [List.length_singleton] at hi; omega
    subst hi0
    rw [heq]
    decide

theorem le_foldl_max (l : List ℕ) (a : ℕ) : a ≤ l.foldl max a := by
  induction l generalizing a with
  | nil => exact le_refl a
  | cons x xs ih => exact le_trans (le_max_left a x) (ih (max a x))

theorem mem_le_foldl_max (l : List ℕ) : ∀ (a x : ℕ), x ∈ l → x ≤ l.foldl max a := by
  induction l with
  | nil => intro a x hx; cases hx
  | cons y ys ih =>
    intro a x hx
    simp only [List.foldl_cons]
    rcases List.mem_cons.mp hx with rfl | hmem
    · exact le_trans (le_max_right a x) (le_foldl_max ys (max a x))
    · exact ih (max a y) x hmem

theorem foldl_max_mem (l : List ℕ) : ∀ a : ℕ, l.foldl max a = a ∨ l.foldl max a ∈ l := by
  induction l with
  | nil => intro a; exact Or.inl rfl
  | cons x xs ih =>
    intro a
    simp only [List.foldl_cons]
    rcases ih (max a x) with heq | hmem
    · rw [heq]
      rcases max_cases a x with ⟨hm, -⟩ | ⟨hm, -⟩
      · exact Or.inl hm
      · exact Or.inr (by simp [hm])
    · exact Or.inr (List.mem_cons_of_mem x hmem)

theorem staffOfWindow_lines (img : Image) (w5 : List ℕ) (st : Staff)
    (h : staffOfWindow img w5 = some st) : st.lines = w5 := by
  unfold staffOfWindow at h
  cases hxp : xPositions img w5 with
  | nil => rw [hxp] at h; cases h
  | cons c rest =>
    rw [hxp] at h
    simp only [Option.some_inj] at h
    rw [← h]

theorem staffOfWindow_isSome (img : Image) (w5 : List ℕ) :
    (staffOfWindow img w5).isSome ↔ xPositions img w5 ≠ [] := by
  unfold staffOfWindow
  cases hxp : xPositions img w5 with
  | nil => simp
  | cons c rest => simp

theorem xPositions_ne_nil (img : Image) (w5 : List ℕ) :
    xPositions img w5 ≠ [] ↔
      0 < maxColSum (windowRegion img w5) (img.headD []).length := by
  constructor
  · intro hne
    obtain ⟨c, hc⟩ := List.exists_mem_of_ne_nil _ hne
    unfold xPositions at hc
    rw [List.mem_filter] at hc
    have hgt : 10 * colSum (windowRegion img w5) c >
        maxColSum (windowRegion img w5) (img.headD []).length := by
      simpa using hc.2
    have hle : colSum (windowRegion img w5) c ≤
        maxColSum (windowRegion img w5) (img.headD []).length := by
      refine mem_le_foldl_max _ 0 _ ?_
      exact List.mem_map_of_mem (colSum (windowRegion img w5)) hc.1
    omega
  · intro hpos
    rcases foldl_max_mem
        ((List.range (img.headD []).length).map (colSum (windowRegion img w5))) 0 with
      heq | hmem
    · exfalso
      unfold maxColSum at hpos
      omega
    · rw [List.mem_map] at hmem
      obtain ⟨c, hcr, hcs⟩ := hmem
      have hql : c ∈ xPositions img w5 := by
        unfold xPositions
        rw [List.mem_filter]
        refine ⟨hcr, ?_⟩
        simp only [decide_eq_true_eq, gt_iff_lt]
        unfold maxColSum
        rw [hcs]
        unfold maxColSum at hpos
        omega
      exact List.ne_nil_of_mem hql

theorem groupStavesGo_accept (img : Image) (fuel : ℕ) (l : List ℕ) (st : Staff) :
    st ∈ groupStavesGo img fuel l → acceptSpacing st.lines ∧ st.lines.length = 5 := by
  induction fuel generalizing l with
  | zero => intro h; cases h
  | succ fuel ih =>
    intro h
    simp only [groupStavesGo] at h
    by_cases hlen : l.length < 5
    · simp [hlen] at h
    · simp only [hlen, if_false] at h
      by_cases hacc : acceptSpacing (l.take 5)
      · simp only [hacc, if_true] at h
        cases hwin : staffOfWindow img (l.take 5) with
        | none => rw [hwin] at h; exact ih (l.drop 5) h
        | some st0 =>
          rw [hwin] at h
          rcases List.mem_cons.mp h with rfl | hmem
          · have hl := staffOfWindow_lines img (l.take 5) st hwin
            rw [hl]
            exact ⟨hacc, by simp [List.length_take]; omega⟩
          · exact ih (l.drop 5) hmem
      · simp only [hacc, if_false] at h
        exact ih (l.drop 1) h

/-- C5 counterexample: the strictly increasing lines `0, 13, 26, 33, 40` have
gaps `13, 13, 7, 7` with mean 10 and standard deviation exactly 3 = 30% of
the mean, so the spec's `≤ 30%` test accepts the window while the code's
strict `<` rejects it and (advancing by 1) produces no staff at all. -/
theorem C5_spacing_tolerance_counterexample :
    acceptSpacingSpec ([0, 13, 26, 33, 40] : List ℕ) ∧
    ¬ acceptSpacing ([0, 13, 26, 33, 40] : List ℕ) ∧
    (group_lines_into_staves img41 [0, 13, 26, 33, 40]).length = 0 := by
  decide

/-- C5 amended: a 5-line window is accepted exactly when the gap standard
deviation is strictly below 30% of the mean gap (`acceptSpacing`); an
accepted window contributes a `Staff` precisely when its band has a column
whose foreground sum exceeds 10% of the maximal column sum — equivalently,
any foreground at all — and the scan then advances by 5 lines, while a
rejected window advances by 1; every returned staff's 5 lines passed the
strict spacing test. -/
theorem C5_window_scan_rule :
    (∀ (img : Image) (l : List ℕ), 5 ≤ l.length → acceptSpacing (l.take 5) →
      group_lines_into_staves img l =
        (staffOfWindow img (l.take 5)).toList ++ group_lines_into_staves img (l.drop 5)) ∧
    (∀ (img : Image) (l : List ℕ), 5 ≤ l.length → ¬ acceptSpacing (l.take 5) →
      group_lines_into_staves img l = group_lines_into_staves img (l.drop 1)) ∧
    (∀ (img : Image) (w5 : List ℕ),
      (staffOfWindow img w5).isSome ↔
        0 < maxColSum (windowRegion img w5) (img.headD []).length) ∧
    (∀ (img : Image) (l : List ℕ) (st : Staff),
      st ∈ group_lines_into_staves img l → acceptSpacing st.lines ∧ st.lines.length = 5) := by
  refine ⟨?_, ?_, ?_, ?_⟩
  · intro img l h5 hacc
    unfold group_lines_into_staves
    obtain ⟨m, hm⟩ : ∃ m, l.length = m + 1 := ⟨l.length - 1, by omega⟩
    rw [hm]
    simp only [groupStavesGo, show ¬ (l.length < 5) by omega, if_false, hacc, if_true]
    have hfuel : groupStavesGo img m (l.drop 5) =
        groupStavesGo img (l.drop 5).length (l.drop 5) := by
      refine groupStavesGo_fuel img m (l.drop 5).length (l.drop 5) ?_ (le_refl _)
      simp only [List.length_drop]; omega
    cases staffOfWindow img (l.take 5) with
    | none => simpa using hfuel
    | some st => simpa using hfuel
  · intro img l h5 hacc
    unfold group_lines_into_staves
    obtain ⟨m, hm⟩ : ∃ m, l.length = m + 1 := ⟨l.length - 1, by omega⟩
    rw [hm]
    simp only [groupStavesGo, show ¬ (l.length < 5) by omega, if_false, hacc, if_false]
    refine groupStavesGo_fuel img m (l.drop 1).length (l.drop 1) ?_ (le_refl _)
    simp only [List.length_drop]; omega
  · intro img w5
    rw [staffOfWindow_isSome]
    exact xPositions_ne_nil img w5
  · intro img l st hmem
    exact groupStavesGo_accept img l.length l st hmem

/-- Witness for C5: the boundary window is rejected and advances by 1; the
evenly spaced window `0, 10, 20, 30, 40` is accepted and consumed whole. -/
theorem C5_window_scan_rule_witness :
    group_lines_into_staves img41 [0, 13, 26, 33, 40] =
      group_lines_into_staves img41 (([0, 13, 26, 33, 40] : List ℕ).drop 1) ∧
    group_lines_into_staves img41 [0, 10, 20, 30, 40] =
      (staffOfWindow img41 (([0, 10, 20, 30, 40] : List ℕ).take 5)).toList ++
        group_lines_into_staves img41 (([0, 10, 20, 30, 40] : List ℕ).drop 5) := by
  constructor
  · exact C5_window_scan_rule.2.1 img41 [0, 13, 26, 33, 40] (by decide) (by decide)
  · exact C5_window_scan_rule.1 img41 [0, 10, 20, 30, 40] (by decide) (by decide)

theorem getD_out {α : Type} (l : List α) (i : ℕ) (d : α) (h : l.length ≤ i) :
    l.getD i d = d := by
  rw [List.getD_eq_getElem?_getD, List.getElem?_eq_none h]
  rfl

theorem getD_mapIdx {α : Type} (l : List α) (f : ℕ → α → α) (i : ℕ) (d : α)
    (h : i < l.length) : (l.mapIdx f).getD i d = f i (l.getD i d) := by
  rw [List.getD_eq_getElem?_getD,
    List.getElem?_eq_getElem (by simpa [List.length_mapIdx] using h),
    List.getD_eq_getElem?_getD, List.getElem?_eq_getElem h]
  simp only [Option.getD_some]
  simpa [List.get_eq_getElem] using List.get_mapIdx l f i h

theorem getD_mapIdx_out {α : Type} (l : List α) (f : ℕ → α → α) (i : ℕ) (d : α)
    (h : l.length ≤ i) : (l.mapIdx f).getD i d = d := by
  rw [List.getD_eq_getElem?_getD,
    List.getElem?_eq_none (by simpa [List.length_mapIdx] using h)]
  rfl

theorem getPix_out (img : Image) (r c : ℕ) (h : img.length ≤ r) : getPix img r c = 0 := by
  unfold getPix
  rw [getD_out img r [] h]
  rfl

theorem zeroBand_length (t x_start x_end ly : ℕ) (img : Image) :
    (zeroBand t x_start x_end ly img).length = img.length := by
  unfold zeroBand
  simp

theorem getPix_zeroBand (t x_start x_end ly : ℕ) (img : Image) (r c : ℕ) :
    getPix (zeroBand t x_start x_end ly img) r c =
      if ly - t ≤ r ∧ r < min img.length (ly + t + 1) ∧ x_start ≤ c ∧ c < x_end then 0
      else getPix img r c := by
  by_cases hr : r < img.length
  · unfold getPix zeroBand
    rw [getD_mapIdx img _ r [] hr]
    by_cases hband : ly - t ≤ r ∧ r < min img.length (ly + t + 1)
    · rw [if_pos hband]
      by_cases hc : c < (img.getD r []).length
      · rw [getD_mapIdx _ _ c 0 hc]
        by_cases hcol : x_start ≤ c ∧ c < x_end
        · rw [if_pos hcol, if_pos ⟨hband.1, hband.2, hcol.1, hcol.2⟩]
        · rw [if_neg hcol, if_neg (fun hh => hcol ⟨hh.2.2.1, hh.2.2.2⟩)]
      · rw [getD_mapIdx_out _ _ c 0 (by omega)]
        rw [getD_out _ c 0 (by omega)]
        split <;> rfl
    · rw [if_neg hband, if_neg (fun hh => hband ⟨hh.1, hh.2.1⟩)]
  · rw [getPix_out _ r c (by rw [zeroBand_length]; omega),
      getPix_out img r c (by omega)]
    split <;> rfl

theorem getPix_foldLines (t x_start x_end : ℕ) (lines : List ℕ) :
    ∀ (img : Image) (r c : ℕ),
      getPix (lines.foldl (fun im2 ly => zeroBand t x_start x_end ly im2) img) r c =
        if ∃ ly ∈ lines, ly - t ≤ r ∧ r < ly + t + 1 ∧ x_start ≤ c ∧ c < x_end then 0
        else getPix img r c := by
  induction lines with
  | nil => intro img r c; simp
  | cons ly rest ih =>
    intro img r c
    simp only [List.foldl_cons]
    rw [ih]
    by_cases hrest : ∃ ly2 ∈ rest, ly2 - t ≤ r ∧ r < ly2 + t + 1 ∧ x_start ≤ c ∧ c < x_end
    · rw [if_pos hrest, if_pos ?_]
      obtain ⟨ly2, hmem, hcond⟩ := hrest
      exact ⟨ly2, List.mem_cons_of_mem ly hmem, hcond⟩
    · rw [if_neg hrest, getPix_zeroBand]
      by_cases hband : ly - t ≤ r ∧ r < ly + t + 1 ∧ x_start ≤ c ∧ c < x_end
      · have hall : ∃ ly2 ∈ ly :: rest,
            ly2 - t ≤ r ∧ r < ly2 + t + 1 ∧ x_start ≤ c ∧ c < x_end :=
          ⟨ly, List.mem_cons_self ly rest, hband⟩
        rw [if_pos hall]
        by_cases hr : r < img.length
        · rw [if_pos ⟨hband.1, by omega, hband.2.2.1, hband.2.2.2⟩]
        · rw [if_neg (by omega)]
          exact getPix_out img r c (by omega)
      · have hnall : ¬ ∃ ly2 ∈ ly :: rest,
            ly2 - t ≤ r ∧ r < ly2 + t + 1 ∧ x_start ≤ c ∧ c < x_end := by
          intro ⟨ly2, hmem, hcond⟩
          rcases List.mem_cons.mp hmem with rfl | hmem2
          · exact hband hcond
          · exact hrest ⟨ly2, hmem2, hcond⟩
        rw [if_neg hnall, if_neg (by omega)]

theorem foldLines_length (t x_start x_end : ℕ) (lines : List ℕ) :
    ∀ img : Image,
      (lines.foldl (fun im2 ly => zeroBand t x_start x_end ly im2) img).length =
        img.length := by
  induction lines with
  | nil => intro img; rfl
  | cons ly rest ih =>
    intro img
    simp only [List.foldl_cons]
    rw [ih, zeroBand_length]

/-- C10 amended: the image produced by `remove_staff_lines` equals the input
image at every pixel except those lying, for some stored staff and one of its
lines, in rows `[line_y - line_thickness, line_y + line_thickness]` and in
columns `[x_start, x_end)` — the upper column bound `x_end` is excluded, as
slicing excludes it — which read 0. -/
theorem C10_remove_staff_lines_zone (staves : List Staff) (line_thickness : ℕ) :
    ∀ (img : Image) (r c : ℕ),
      getPix (remove_staff_lines staves line_thickness img) r c =
        if ∃ st ∈ staves, ∃ ly ∈ st.lines,
            ly - line_thickness ≤ r ∧ r < ly + line_thickness + 1 ∧
            st.x_start ≤ c ∧ c < st.x_end then 0
        else getPix img r c := by
  induction staves with
  | nil =>
    intro img r c
    simp [remove_staff_lines]
  | cons st rest ih =>
    intro img r c
    unfold remove_staff_lines at ih ⊢
    simp only [List.foldl_cons]
    rw [ih]
    rw [getPix_foldLines]
    by_cases hrest : ∃ st2 ∈ rest, ∃ ly ∈ st2.lines,
        ly - line_thickness ≤ r ∧ r < ly + line_thickness + 1 ∧
        st2.x_start ≤ c ∧ c < st2.x_end
    · rw [if_pos hrest, if_pos ?_]
      obtain ⟨st2, hmem, hrest2⟩ := hrest
      exact ⟨st2, List.mem_cons_of_mem st hmem, hrest2⟩
    · rw [if_neg hrest]
      by_cases hst : ∃ ly ∈ st.lines,
          ly - line_thickness ≤ r ∧ r < ly + line_thickness + 1 ∧
          st.x_start ≤ c ∧ c < st.x_end
      · rw [if_pos hst, if_pos ?_]
        obtain ⟨ly, hmem, hcond⟩ := hst
        exact ⟨st, List.mem_cons_self st rest, ly, hmem, hcond⟩
      · rw [if_neg hst, if_neg ?_]
        intro ⟨st2, hmem, hcond⟩
        rcases List.mem_cons.mp hmem with rfl | hmem2
        · exact hst hcond
        · exact hrest ⟨st2, hmem2, hcond⟩

/-- C10 counterexample: the pixel at row 2, column 2 lies inside the claim's
zone (`2 ∈ [line_y - 2, line_y + 2]` for `line_y = 2`, and column
`2 ∈ [x_start, x_end] = [0, 2]` taken inclusively) but `remove_staff_lines`
leaves it at 1, because the slice `x_start:x_end` excludes column `x_end`. -/
theorem C10_xend_exclusive_counterexample :
    (2 : ℕ) ∈ staffNarrow.lines ∧
    (2 : ℕ) - 2 ≤ 2 ∧ (2 : ℕ) ≤ 2 + 2 ∧
    staffNarrow.x_start ≤ 2 ∧ (2 : ℕ) ≤ staffNarrow.x_end ∧
    getPix img13 2 2 = 1 ∧
    getPix (remove_staff_lines [staffNarrow] 2 img13) 2 2 = 1 ∧ (1 : ℕ) ≠ 0 := by
  decide
